import Mathlib

/-!
Shallow embedding of `src/core/ab_test_engine.py` (class `ABTestEngine`).

Floats are idealised as exact rationals; the IEEE special values that the
degenerate paths of the code produce (division by a zero standard error)
are modelled by the four-point type `F` below.  The numeric library
primitives the code calls (`np.sqrt`, `scipy.stats.norm.cdf/ppf`,
`chi2.sf`, `fisher_exact`, `np.arcsin`, statsmodels `solve_power`) are
abstracted as an arbitrary function table `MathOracle`; theorems quantify
over every such table, so they hold whatever the library returns.
-/

namespace ABTest

set_option maxRecDepth 4000

/-- The `alternative` parameter of `run_test`: `two-sided`, `greater`, `less`. -/
inductive Alt
| twoSided
| greater
| less
deriving DecidableEq, Repr

/-- The `method` parameter of `run_test`: `z_test`, `chi2`, `fisher`, `barnard`
(the spec calls the last one the permutation test). -/
inductive Method
| z_test
| chi2
| fisher
| barnard
deriving DecidableEq, Repr

/-- Python 3 `round` on a float: nearest integer, ties to the even integer. -/
def pyRound (q : ℚ) : ℤ :=
  if q - (⌊q⌋ : ℚ) < 1/2 then ⌊q⌋
  else if 1/2 < q - (⌊q⌋ : ℚ) then ⌊q⌋ + 1
  else if ⌊q⌋ % 2 = 0 then ⌊q⌋ else ⌊q⌋ + 1

/-- Python `int()` applied to a float: truncation toward zero. -/
def pyInt (q : ℚ) : ℤ := if 0 ≤ q then ⌊q⌋ else ⌈q⌉

/-- Value domain for the quantities that the code computes with IEEE floats:
a finite rational, plus the infinities and NaN that its degenerate division
paths produce. -/
inductive F
| rat (q : ℚ)
| pinf
| ninf
| nan
deriving DecidableEq, Repr

/-- IEEE division of two finite values whose divisor comes from `np.sqrt`
(hence is nonnegative, with sign `+0` when zero): `0/0 = NaN`,
`x/0 = ±inf` by the sign of `x`. -/
def F.divQ (a b : ℚ) : F :=
  if b = 0 then (if a = 0 then .nan else if 0 < a then .pinf else .ninf) else .rat (a / b)

/-- Whether the value is an ordinary finite float. -/
def F.isFinite : F → Bool
| .rat _ => true
| _ => false

/-- IEEE comparison `x < c` against a finite threshold; false for NaN. -/
def F.ltQ : F → ℚ → Bool
| .rat q, c => decide (q < c)
| .ninf, _ => true
| _, _ => false

/-- IEEE comparison `x > 0`; false for NaN. -/
def F.posB : F → Bool
| .rat q => decide (0 < q)
| .pinf => true
| _ => false

/-- IEEE comparison `abs x > c` for a nonnegative threshold; false for NaN. -/
def F.absGtB : F → ℚ → Bool
| .rat q, c => decide (c < |q|)
| .nan, _ => false
| _, _ => true

/-- Subtraction of a finite rational from a possibly non-finite value. -/
def F.subQ : F → ℚ → F
| .rat q, c => .rat (q - c)
| .pinf, _ => .pinf
| .ninf, _ => .ninf
| .nan, _ => .nan

/-- The library primitives used by the engine, abstracted as a function table.
The two recorded facts about `sqrt` (`sqrt 0 = 0` and positivity on positive
inputs) are the only analytic properties any proof needs. -/
structure MathOracle where
  sqrt : ℚ → ℚ
  normCdf : ℚ → ℚ
  normPpf : ℚ → ℚ
  chi2sf : ℚ → ℚ
  fisherP : ℤ → ℤ → ℤ → ℤ → Alt → ℚ
  asin : ℚ → ℚ
  solvePowerN : ℚ → ℚ → ℚ → ℚ → ℚ
  solvePowerPow : ℚ → ℤ → ℚ → ℚ → ℚ
  sqrt_zero : sqrt 0 = 0
  sqrt_pos : ∀ q : ℚ, 0 < q → 0 < sqrt q

/-- The data stored on the engine by `set_data`: `n_a`, `win_rate_a`, `n_b`,
`win_rate_b`, and the derived rounded win counts `wins_a`, `wins_b`. -/
structure TrialData where
  n_a : ℤ
  win_rate_a : ℚ
  n_b : ℤ
  win_rate_b : ℚ
  wins_a : ℤ
  wins_b : ℤ
deriving DecidableEq, Repr

/-- A `TrialPair` in the state `set_data` leaves it in after successful
validation: positive sample sizes, rates in `[0,1]`, win counts equal to the
rounded products. -/
def Valid (d : TrialData) : Prop :=
  0 < d.n_a ∧ 0 < d.n_b ∧
  0 ≤ d.win_rate_a ∧ d.win_rate_a ≤ 1 ∧ 0 ≤ d.win_rate_b ∧ d.win_rate_b ≤ 1 ∧
  d.wins_a = pyRound ((d.n_a : ℚ) * d.win_rate_a) ∧
  d.wins_b = pyRound ((d.n_b : ℚ) * d.win_rate_b)

instance (d : TrialData) : Decidable (Valid d) := by
  unfold Valid
  infer_instance

/-- The two fatal validation errors of `_validate_data` (the two distinct
`ValueError` messages; the spec names them `InvalidSampleSize` and
`InvalidRate`). -/
inductive ValidationError
| invalidSampleSize
| invalidRate
deriving DecidableEq, Repr

/-- The advisory observations `_validate_data` prints without raising. -/
inductive DataWarning
| smallSample
| nonIntegerWinsA
| nonIntegerWinsB
deriving DecidableEq, Repr

/-- The fatal part of `_validate_data`, in source order: sample sizes first,
then the rate ranges. -/
def validateData (nA : ℤ) (rA : ℚ) (nB : ℤ) (rB : ℚ) : Option ValidationError :=
  if nA ≤ 0 ∨ nB ≤ 0 then some .invalidSampleSize
  else if ¬(0 ≤ rA ∧ rA ≤ 1) ∨ ¬(0 ≤ rB ∧ rB ≤ 1) then some .invalidRate
  else none

/-- The advisory warnings `_validate_data` emits on the non-raising path:
small sample (`n < 30`) and a win count off the nearest integer by more
than `0.001`. -/
def validationWarnings (nA : ℤ) (rA : ℚ) (nB : ℤ) (rB : ℚ) : List DataWarning :=
  (if nA < 30 ∨ nB < 30 then [DataWarning.smallSample] else []) ++
  (if 1/1000 < |(nA : ℚ) * rA - (pyRound ((nA : ℚ) * rA) : ℚ)| then [DataWarning.nonIntegerWinsA] else []) ++
  (if 1/1000 < |(nB : ℚ) * rB - (pyRound ((nB : ℚ) * rB) : ℚ)| then [DataWarning.nonIntegerWinsB] else [])

/-- Effect of one `set_data` call on the engine: the stored trial data
(unchanged when a `ValueError` propagates, since the method validates before
assigning), the raised error if any, and the advisory warnings printed. -/
def setDataRun (st : Option TrialData) (nA : ℤ) (rA : ℚ) (nB : ℤ) (rB : ℚ) :
    Option TrialData × Option ValidationError × List DataWarning :=
  match validateData nA rA nB rB with
  | some e => (st, some e, [])
  | none =>
    (some ⟨nA, rA, nB, rB, pyRound ((nA : ℚ) * rA), pyRound ((nB : ℚ) * rB)⟩,
     none, validationWarnings nA rA nB rB)

/-- The four distinct strings `_get_recommendation` can synthesize:
prefer strategy B (significantly better), prefer strategy A, effect large
but not significant (collect more data), or no meaningful difference. -/
inductive Advice
| preferB
| preferA
| collectMore
| similarEffect
deriving DecidableEq, Repr

/-- Embedding of `_get_recommendation(p_value, alpha, effect)`: picks the
winner by the sign of `effect` when `p_value < alpha`, else compares
`abs(effect)` with `0.05`. -/
def getRecommendation (p : F) (α : ℚ) (effect : F) : Advice :=
  if p.ltQ α then (if effect.posB then .preferB else .preferA)
  else if effect.absGtB (1/20) then .collectMore else .similarEffect

/-- Result dictionary of one test run.  Fields that a given method's
dictionary does not contain are `none`; in particular `_chi2_test` returns
no `alternative` key. -/
structure TestResult where
  method : Method
  statistic : F
  pValue : F
  alpha : ℚ
  alternative : Option Alt
  significant : Bool
  advice : Advice
  ciLower : Option F
  ciUpper : Option F
  dof : Option ℕ
  phi : Option ℚ
  nPermutations : Option ℕ
deriving DecidableEq, Repr

/-- Errors a `run_test` call can raise: data not yet set, or the
`ValueError` that `scipy.stats.chi2_contingency` raises when the table of
expected frequencies contains a zero element. -/
inductive TestError
| dataNotSet
| zeroExpected
deriving DecidableEq, Repr

/-- Pooled proportion `(wins_a + wins_b) / (n_a + n_b)` from `_z_test`. -/
def pooledP (d : TrialData) : ℚ :=
  ((d.wins_a : ℚ) + (d.wins_b : ℚ)) / ((d.n_a : ℚ) + (d.n_b : ℚ))

/-- The p-value branch of `_z_test`: `2*(1 - cdf(abs z))`, `1 - cdf z`, or
`cdf z` by alternative, extended to the IEEE specials the degenerate path
produces (`cdf(+inf) = 1`, `cdf(-inf) = 0`, NaN propagates). -/
def zPValue (O : MathOracle) (z : F) (alt : Alt) : F :=
  match alt, z with
  | _, .nan => .nan
  | .twoSided, .rat q => .rat (2 * (1 - O.normCdf |q|))
  | .twoSided, _ => .rat 0
  | .greater, .rat q => .rat (1 - O.normCdf q)
  | .greater, .pinf => .rat 0
  | .greater, .ninf => .rat 1
  | .less, .rat q => .rat (O.normCdf q)
  | .less, .pinf => .rat 1
  | .less, .ninf => .rat 0

/-- Embedding of `_z_test`: pooled-variance statistic, p-value by
alternative, unpooled-variance confidence interval, recommendation from the
raw rate difference. -/
def zTest (O : MathOracle) (d : TrialData) (α : ℚ) (alt : Alt) : TestResult :=
  let n1 : ℚ := (d.n_a : ℚ)
  let n2 : ℚ := (d.n_b : ℚ)
  let p1 := d.win_rate_a
  let p2 := d.win_rate_b
  let se : ℚ := O.sqrt (pooledP d * (1 - pooledP d) * (1 / n1 + 1 / n2))
  let z : F := F.divQ (p2 - p1) se
  let pValue : F := zPValue O z alt
  let seCi : ℚ := O.sqrt (p1 * (1 - p1) / n1 + p2 * (1 - p2) / n2)
  let diff := p2 - p1
  let ci : F × F :=
    match alt with
    | .twoSided =>
      (.rat (diff - O.normPpf (1 - α / 2) * seCi), .rat (diff + O.normPpf (1 - α / 2) * seCi))
    | .greater => (.rat (diff - O.normPpf (1 - α) * seCi), .pinf)
    | .less => (.ninf, .rat (diff + O.normPpf (1 - α) * seCi))
  { method := .z_test, statistic := z, pValue := pValue, alpha := α,
    alternative := some alt, significant := pValue.ltQ α,
    advice := getRecommendation pValue α (.rat diff),
    ciLower := some ci.1, ciUpper := some ci.2,
    dof := none, phi := none, nPermutations := none }

/-- One cell of the Yates-corrected chi-square sum as
`scipy.stats.chi2_contingency(..., correction=True)` computes it: the
observed count is moved toward the expected count by at most `1/2`. -/
def yatesTerm (o e : ℚ) : ℚ :=
  let adj := o + (if o ≤ e then min (1/2) (e - o) else -(min (1/2) (o - e)))
  (adj - e) ^ 2 / e

/-- Embedding of `_chi2_test` including the `chi2_contingency` call: expected
counts from the margins, `ValueError` on a zero expected element, Yates
correction, effect size `phi = sqrt(chi2/total)` fed to the recommendation. -/
def chi2Test (O : MathOracle) (d : TrialData) (α : ℚ) : Except TestError TestResult :=
  let wA : ℚ := (d.wins_a : ℚ)
  let lA : ℚ := ((d.n_a - d.wins_a : ℤ) : ℚ)
  let wB : ℚ := (d.wins_b : ℚ)
  let lB : ℚ := ((d.n_b - d.wins_b : ℤ) : ℚ)
  let total := wA + lA + wB + lB
  let e11 := (wA + lA) * (wA + wB) / total
  let e12 := (wA + lA) * (lA + lB) / total
  let e21 := (wB + lB) * (wA + wB) / total
  let e22 := (wB + lB) * (lA + lB) / total
  if e11 = 0 ∨ e12 = 0 ∨ e21 = 0 ∨ e22 = 0 then .error .zeroExpected
  else
    let stat := yatesTerm wA e11 + yatesTerm lA e12 + yatesTerm wB e21 + yatesTerm lB e22
    let p := O.chi2sf stat
    let phi := O.sqrt (stat / total)
    .ok { method := .chi2, statistic := .rat stat, pValue := .rat p, alpha := α,
          alternative := none, significant := F.ltQ (.rat p) α,
          advice := getRecommendation (.rat p) α (.rat phi),
          ciLower := none, ciUpper := none, dof := some 1, phi := some phi,
          nPermutations := none }

/-- Embedding of `_fisher_test`: `scipy.stats.fisher_exact` returns the
sample odds ratio `winsA*lossesB/(lossesA*winsB)` when both denominator
cells are positive and `inf` otherwise; the p-value itself is the library
call, abstracted by the oracle.  The recommendation is fed `oddsratio - 1`. -/
def fisherTest (O : MathOracle) (d : TrialData) (α : ℚ) (alt : Alt) : TestResult :=
  let lA := d.n_a - d.wins_a
  let lB := d.n_b - d.wins_b
  let oddsR : F :=
    if 0 < lA ∧ 0 < d.wins_b
    then .rat (((d.wins_a * lB : ℤ) : ℚ) / ((lA * d.wins_b : ℤ) : ℚ))
    else .pinf
  let p := O.fisherP d.wins_a lA d.wins_b lB alt
  { method := .fisher, statistic := oddsR, pValue := .rat p, alpha := α,
    alternative := some alt, significant := F.ltQ (.rat p) α,
    advice := getRecommendation (.rat p) α (oddsR.subQ 1),
    ciLower := none, ciUpper := none, dof := none, phi := none,
    nPermutations := none }

/-- Arguments of the `np.random.hypergeometric(ngood, nbad, nsample)` call
inside `_barnard_test`, read off the source: `ngood = wins_a + wins_b`,
`nbad = (n_a + n_b) - (wins_a + wins_b)`, `nsample = n_a + n_b`. -/
def barnardHyperCall (d : TrialData) : ℤ × ℤ × ℤ :=
  (d.wins_a + d.wins_b, (d.n_a + d.n_b) - (d.wins_a + d.wins_b), d.n_a + d.n_b)

/-- Support of a hypergeometric draw with `ngood` successes, `nbad`
failures and sample size `nsample`: any value a correct sampler can
return lies between `max 0 (nsample - nbad)` and `min ngood nsample`. -/
def hyperSupport (ngood nbad nsample k : ℤ) : Prop :=
  max 0 (nsample - nbad) ≤ k ∧ k ≤ min ngood nsample

instance (ngood nbad nsample k : ℤ) : Decidable (hyperSupport ngood nbad nsample k) := by
  unfold hyperSupport
  infer_instance

/-- One simulated difference of `_barnard_test` for a drawn win count
`permWins`: `perm_rate_b - perm_rate_a` with the source's `n > 0` guards. -/
def barnardSimDiff (d : TrialData) (permWins : ℤ) : ℚ :=
  let totalWins := d.wins_a + d.wins_b
  let ra : ℚ := if 0 < d.n_a then (permWins : ℚ) / (d.n_a : ℚ) else 0
  let rb : ℚ := if 0 < d.n_b then ((totalWins - permWins : ℤ) : ℚ) / (d.n_b : ℚ) else 0
  rb - ra

/-- The fixed resample count `n_permutations = 10000` of `_barnard_test`. -/
def nPermutFixed : ℕ := 10000

/-- Embedding of `_barnard_test`.  The code reads its draws from the
process-wide NumPy generator; `draws i` stands for the value that generator
hands back on iteration `i` (a correct sampler keeps it inside
`hyperSupport` of `barnardHyperCall`). -/
def barnardTest (d : TrialData) (draws : ℕ → ℕ) (α : ℚ) (alt : Alt) : TestResult :=
  let observedDiff := d.win_rate_b - d.win_rate_a
  let keep : ℕ → Bool := fun i =>
    match alt with
    | .twoSided => decide (|observedDiff| ≤ |barnardSimDiff d (draws i)|)
    | .greater => decide (observedDiff ≤ barnardSimDiff d (draws i))
    | .less => decide (barnardSimDiff d (draws i) ≤ observedDiff)
  let p : ℚ := ((List.range nPermutFixed).countP keep : ℚ) / (nPermutFixed : ℚ)
  { method := .barnard, statistic := .rat observedDiff, pValue := .rat p,
    alpha := α, alternative := some alt, significant := F.ltQ (.rat p) α,
    advice := getRecommendation (.rat p) α (.rat observedDiff),
    ciLower := none, ciUpper := none, dof := none, phi := none,
    nPermutations := some nPermutFixed }

/-- Embedding of `run_test`: raises when no data is set, then dispatches on
the method.  Only the barnard branch consumes random draws. -/
def runTest (O : MathOracle) (draws : ℕ → ℕ) (st : Option TrialData)
    (m : Method) (α : ℚ) (alt : Alt) : Except TestError TestResult :=
  match st with
  | none => .error .dataNotSet
  | some d =>
    match m with
    | .z_test => .ok (zTest O d α alt)
    | .chi2 => chi2Test O d α
    | .fisher => .ok (fisherTest O d α alt)
    | .barnard => .ok (barnardTest d draws α alt)

/-- Whether an engine call returned normally. -/
def isOk {ε σ : Type} : Except ε σ → Bool
| .ok _ => true
| .error _ => false

/-- The `alternative` entry of a returned result dictionary, `none` when the
call raised. -/
def okAlternative : Except TestError TestResult → Option Alt
| .ok r => r.alternative
| .error _ => none

/-- The recommendation entry of a returned result dictionary. -/
def okAdvice : Except TestError TestResult → Option Advice
| .ok r => some r.advice
| .error _ => none

/-- The significance flag of a returned result dictionary. -/
def okSignificant : Except TestError TestResult → Option Bool
| .ok r => some r.significant
| .error _ => none

/-- Whether the point statistic of a returned result dictionary is strictly
positive. -/
def okStatPos : Except TestError TestResult → Option Bool
| .ok r => some r.statistic.posB
| .error _ => none

/-- The sample-size ratio of `_get_recommended_method` and
`get_sample_imbalance_analysis`: `min(n_a,n_b)/max(n_a,n_b)` with the
source's `max > 0` guard. -/
def sizeQuotient (d : TrialData) : ℚ :=
  if 0 < max d.n_a d.n_b
  then ((min d.n_a d.n_b : ℤ) : ℚ) / ((max d.n_a d.n_b : ℤ) : ℚ)
  else 0

/-- The minimum expected cell count `min(wins_a, n_a - wins_a, wins_b,
n_b - wins_b)` used to choose between chi-square, Fisher and barnard. -/
def minExpectedCount (d : TrialData) : ℤ :=
  min (min d.wins_a (d.n_a - d.wins_a)) (min d.wins_b (d.n_b - d.wins_b))

/-- Embedding of `_get_recommended_method`: defaults to the z-test when no
data is set, then the ordered threshold chain of the source. -/
def getRecommendedMethod (st : Option TrialData) : Method :=
  match st with
  | none => .z_test
  | some d =>
    let isSmallSample := min d.n_a d.n_b < 30
    let isExtremeImbalance := sizeQuotient d < 1/10
    if isSmallSample ∨ isExtremeImbalance then
      (if 5 ≤ minExpectedCount d then .fisher else .barnard)
    else if 1/10 ≤ sizeQuotient d ∧ sizeQuotient d < 3/10 then .z_test
    else if 5 ≤ minExpectedCount d then .chi2 else .fisher

/-- Modelled from the spec, section 4.2: the ordered rule table for the
recommended method, written from the spec's own words (ratio
`r = min/max` with no guard, small-sample flag, minimum expected cell
count `m`, first matching rule wins). -/
def specRecommendedMethod (d : TrialData) : Method :=
  let r : ℚ := ((min d.n_a d.n_b : ℤ) : ℚ) / ((max d.n_a d.n_b : ℤ) : ℚ)
  let smallFlag := min d.n_a d.n_b < 30
  let m := min (min d.wins_a (d.n_a - d.wins_a)) (min d.wins_b (d.n_b - d.wins_b))
  if smallFlag ∨ r < 1/10 then (if 5 ≤ m then .fisher else .barnard)
  else if 1/10 ≤ r ∧ r < 3/10 then .z_test
  else if 5 ≤ m then .chi2 else .fisher

/-- The minimum recommended additional sample size field of
`get_sample_imbalance_analysis`: `max(50, int(0.3 * max(n_a, n_b)))`,
with Python `int()` truncating the float product. -/
def minRecommendedSample (d : TrialData) : ℤ :=
  max 50 (pyInt ((3/10 : ℚ) * ((max d.n_a d.n_b : ℤ) : ℚ)))

/-- Rounding to the nearest integer (half away from zero on the inputs at
stake here), as the claim reads the formula. -/
def roundNearest (q : ℚ) : ℤ := ⌊q + 1/2⌋

/-- Modelled from the spec, section 4.2: the claimed formula
`max(50, round(0.3 * max(nA, nB)))` with round meaning nearest integer. -/
def claimedMinRecommendedSample (d : TrialData) : ℤ :=
  max 50 (roundNearest ((3/10 : ℚ) * ((max d.n_a d.n_b : ℤ) : ℚ)))

/-- The interpretation bands of `_interpret_power`. -/
inductive PowerBand
| veryLow
| insufficient
| sufficient
deriving DecidableEq, Repr

/-- The dictionary `get_power_analysis` returns. -/
structure PowerReport where
  observedEffectSize : ℚ
  currentPower : ℚ
  requiredPerGroup : ℤ
  currentTotal : ℤ
  requiredTotal : ℤ
  band : PowerBand
deriving DecidableEq, Repr

/-- Embedding of `get_power_analysis`: Cohen's h through the oracle's
`arcsin`/`sqrt`, statsmodels solve_power through the oracle, and the
source's literal `... if self.n_a > 0 else 0` for the required total. -/
def getPowerAnalysis (O : MathOracle) (d : TrialData) (α pw : ℚ) : PowerReport :=
  let h := 2 * O.asin (O.sqrt d.win_rate_b) - 2 * O.asin (O.sqrt d.win_rate_a)
  let ratio : ℚ := if 0 < d.n_a then (d.n_b : ℚ) / (d.n_a : ℚ) else 1
  let currentPower := O.solvePowerPow |h| d.n_a α ratio
  let requiredN := O.solvePowerN |h| α pw ratio
  { observedEffectSize := |h|,
    currentPower := currentPower,
    requiredPerGroup := ⌈requiredN⌉,
    currentTotal := d.n_a + d.n_b,
    requiredTotal := if 0 < d.n_a then ⌈requiredN * (1 + (d.n_b : ℚ) / (d.n_a : ℚ))⌉ else 0,
    band := if currentPower < 1/2 then .veryLow
            else if currentPower < 4/5 then .insufficient else .sufficient }

/-- A concrete well-formed oracle used to instantiate closed statements:
its functions are arbitrary simple stand-ins satisfying the recorded
`sqrt` facts. -/
def refOracle : MathOracle where
  sqrt := fun q => if 0 < q then 1 else 0
  normCdf := fun _ => 1/2
  normPpf := fun _ => 0
  chi2sf := fun _ => 1/2
  fisherP := fun _ _ _ _ _ => 1/2
  asin := fun _ => 0
  solvePowerN := fun _ _ _ _ => 0
  solvePowerPow := fun _ _ _ _ => 0
  sqrt_zero := by norm_num
  sqrt_pos := fun q h => by simp [h]

/-- The worked example of the source's own `test_engine`:
`n_a = 1000, win_rate_a = 0.52, n_b = 50, win_rate_b = 0.62`, giving
`wins_a = 520`, `wins_b = 31`. -/
def dExample : TrialData := ⟨1000, 13/25, 50, 31/50, 520, 31⟩

/-- A degenerate pooled-rate input: both groups all wins
(`n_a = n_b = 1`, both rates `1.0`), so the pooled proportion is `1`. -/
def dAllWins : TrialData := ⟨1, 1, 1, 1, 1, 1⟩

/-- The spec's boundary input `nA=1, winRateA=1.0, nB=1, winRateB=0.0`. -/
def dBoundary : TrialData := ⟨1, 1, 1, 0, 1, 0⟩

/-- A balanced pair with a large observed gap in favour of group A:
`n_a = n_b = 100`, rates `0.9` and `0.1`. -/
def dAHigher : TrialData := ⟨100, 9/10, 100, 1/10, 90, 10⟩

/-- Equal groups of 339 at rate one half: the input on which float
truncation and round-to-nearest disagree for the 0.3-fraction formula. -/
def dEqual339 : TrialData := ⟨339, 1/2, 339, 1/2, 170, 170⟩

/-- Modelled from the spec, section 4.3: the z statistic written from the
spec's words, `z = (pB - pA) / sqrt(ppool (1-ppool) (1/nA + 1/nB))` with
`ppool = (winsA + winsB)/(nA + nB)` and the sample proportions (the stored
win rates) directly in the numerator. -/
def zSpecStatistic (O : MathOracle) (d : TrialData) : F :=
  F.divQ (d.win_rate_b - d.win_rate_a)
    (O.sqrt (((d.wins_a + d.wins_b : ℤ) : ℚ) / ((d.n_a + d.n_b : ℤ) : ℚ)
      * (1 - ((d.wins_a + d.wins_b : ℤ) : ℚ) / ((d.n_a + d.n_b : ℤ) : ℚ))
      * (1 / (d.n_a : ℚ) + 1 / (d.n_b : ℚ))))

/-- Modelled from the spec, section 4.3: p-value `2(1 - cdf |z|)`,
`1 - cdf z`, or `cdf z` by alternative, applied to the spec's z statistic. -/
def zSpecPValue (O : MathOracle) (d : TrialData) (alt : Alt) : F :=
  zPValue O (zSpecStatistic O d) alt

lemma pyRound_nonneg {q : ℚ} (h : 0 ≤ q) : 0 ≤ pyRound q := by
  unfold pyRound
  have h0 : (0 : ℤ) ≤ ⌊q⌋ := Int.floor_nonneg.mpr h
  split_ifs <;> omega

lemma pyRound_le {q : ℚ} {n : ℤ} (h : q ≤ (n : ℚ)) : pyRound q ≤ n := by
  unfold pyRound
  have hfl : ⌊q⌋ ≤ n := by
    have := Int.floor_le_floor h
    simpa using this
  have hfq : (⌊q⌋ : ℚ) ≤ q := Int.floor_le q
  have hstep : ¬(q - (⌊q⌋ : ℚ) < 1/2) → ⌊q⌋ + 1 ≤ n := by
    intro hge
    push_neg at hge
    have hlt : ⌊q⌋ < n := by
      by_contra hc
      push_neg at hc
      have : (n : ℚ) ≤ (⌊q⌋ : ℚ) := by exact_mod_cast hc
      linarith
    omega
  split_ifs with h1 h2 h3
  · exact hfl
  · exact hstep h1
  · exact hfl
  · exact hstep h1

lemma valid_wins_bounds (d : TrialData) (h : Valid d) :
    0 ≤ d.wins_a ∧ d.wins_a ≤ d.n_a ∧ 0 ≤ d.wins_b ∧ d.wins_b ≤ d.n_b := by
  obtain ⟨ha, hb, hra0, hra1, hrb0, hrb1, hwa, hwb⟩ := h
  have hna : (0 : ℚ) ≤ (d.n_a : ℚ) := by exact_mod_cast ha.le
  have hnb : (0 : ℚ) ≤ (d.n_b : ℚ) := by exact_mod_cast hb.le
  refine ⟨?_, ?_, ?_, ?_⟩
  · rw [hwa]
    exact pyRound_nonneg (mul_nonneg hna hra0)
  · rw [hwa]
    refine pyRound_le ?_
    calc (d.n_a : ℚ) * d.win_rate_a ≤ (d.n_a : ℚ) * 1 := mul_le_mul_of_nonneg_left hra1 hna
    _ = (d.n_a : ℚ) := mul_one _
  · rw [hwb]
    exact pyRound_nonneg (mul_nonneg hnb hrb0)
  · rw [hwb]
    refine pyRound_le ?_
    calc (d.n_b : ℚ) * d.win_rate_b ≤ (d.n_b : ℚ) * 1 := mul_le_mul_of_nonneg_left hrb1 hnb
    _ = (d.n_b : ℚ) := mul_one _

/-- C1: the source's hypergeometric call in `_barnard_test` passes
`nsample = n_a + n_b` (the whole pooled population) instead of the claimed
`n_a`; on the worked input the support of that draw is the single point
`551 = pooled wins`, so every simulated difference equals `-551/1000`. -/
theorem c1_barnard_resample_call :
    Valid dExample ∧
    barnardHyperCall dExample = (551, 499, 1050) ∧
    dExample.n_a = 1000 ∧
    (∀ k : ℤ, hyperSupport 551 499 1050 k ↔ k = 551) ∧
    (∀ k : ℤ, hyperSupport 551 499 1050 k → barnardSimDiff dExample k = -(551/1000)) := by
  refine ⟨by with_unfolding_all decide, by with_unfolding_all decide, rfl, ?_, ?_⟩
  · intro k
    unfold hyperSupport
    omega
  · intro k hk
    have hk551 : k = 551 := by
      unfold hyperSupport at hk
      omega
    subst hk551
    with_unfolding_all decide

/-- C1 witness: the forced draw value is in the support and yields the
constant simulated difference. -/
theorem c1_barnard_resample_call_witness :
    hyperSupport 551 499 1050 551 ∧ barnardSimDiff dExample 551 = -(551/1000) :=
  ⟨by with_unfolding_all decide, c1_barnard_resample_call.2.2.2.2 551 (by with_unfolding_all decide)⟩

lemma support_forces {d : TrialData} (h : Valid d) {k : ℤ}
    (hs : hyperSupport (barnardHyperCall d).1 (barnardHyperCall d).2.1
      (barnardHyperCall d).2.2 k) :
    k = d.wins_a + d.wins_b := by
  obtain ⟨h1, h2, h3, h4⟩ := valid_wins_bounds d h
  unfold barnardHyperCall hyperSupport at hs
  simp only at hs
  omega

/-- C2: `_barnard_test` has no seed or random-source parameter; its draws
come from the process-wide NumPy generator.  Because the call samples the
whole pooled population (the C1 slip), any in-support draw stream is forced
to the pooled win count, so two runs agree whatever the global generator
state was — not because of a per-call seeded source. -/
theorem c2_barnard_global_state :
    ∀ d : TrialData, Valid d →
    ∀ draws1 draws2 : ℕ → ℕ,
    (∀ i, hyperSupport (barnardHyperCall d).1 (barnardHyperCall d).2.1
      (barnardHyperCall d).2.2 ((draws1 i : ℤ))) →
    (∀ i, hyperSupport (barnardHyperCall d).1 (barnardHyperCall d).2.1
      (barnardHyperCall d).2.2 ((draws2 i : ℤ))) →
    ∀ (α : ℚ) (alt : Alt),
      barnardTest d draws1 α alt = barnardTest d draws2 α alt := by
  intro d h draws1 draws2 h1 h2 α alt
  have hfun : draws1 = draws2 := by
    funext i
    have q1 := support_forces h (h1 i)
    have q2 := support_forces h (h2 i)
    have hz : ((draws1 i : ℤ)) = ((draws2 i : ℤ)) := by rw [q1, q2]
    exact_mod_cast hz
  rw [hfun]

/-- C2 witness: two syntactically different draw streams, both inside the
support of the code's call, give the same permutation-test result. -/
theorem c2_barnard_global_state_witness :
    barnardTest dExample (fun _ => 551) (1/20) Alt.twoSided
      = barnardTest dExample (fun _ => 500 + 51) (1/20) Alt.twoSided :=
  c2_barnard_global_state dExample (by with_unfolding_all decide) _ _
    (fun _ => by with_unfolding_all decide) (fun _ => by with_unfolding_all decide) (1/20) Alt.twoSided

/-- C3 counterexample: on the all-wins degenerate input the z-test neither
raises nor reports a distinguishable degenerate state — it returns the
ordinary z-test dictionary with NaN statistic and NaN p-value and
`significant = False`, i.e. NaN silently propagated into an ordinary
result. -/
theorem c3_degenerate_counterexample :
    Valid dAllWins ∧
    pooledP dAllWins * (1 - pooledP dAllWins) = 0 ∧
    (zTest refOracle dAllWins (1/20) Alt.twoSided).statistic = F.nan ∧
    (zTest refOracle dAllWins (1/20) Alt.twoSided).pValue = F.nan ∧
    (zTest refOracle dAllWins (1/20) Alt.twoSided).significant = false ∧
    (zTest refOracle dAllWins (1/20) Alt.twoSided).method = Method.z_test := by
  with_unfolding_all decide

/-- C3 amended: on any validated pair with degenerate pooled proportion the
z-test returns an ordinary result whose statistic is non-finite (NaN when
the two rates coincide, with NaN p-value and a false significance flag);
and on the spec's boundary input (which is not degenerate: its pooled rate
is one half) none of the four methods raises. -/
theorem c3_degenerate_silent :
    (∀ (O : MathOracle) (d : TrialData) (α : ℚ) (alt : Alt),
      Valid d → pooledP d * (1 - pooledP d) = 0 →
      (zTest O d α alt).statistic.isFinite = false ∧
      (d.win_rate_b = d.win_rate_a →
        (zTest O d α alt).statistic = F.nan ∧
        (zTest O d α alt).pValue = F.nan ∧
        (zTest O d α alt).significant = false)) ∧
    (∀ m : Method,
      isOk (runTest refOracle (fun _ => 1) (some dBoundary) m (1/20) Alt.twoSided) = true) := by
  constructor
  · intro O d α alt hv hdeg
    have harg : pooledP d * (1 - pooledP d) * (1 / (d.n_a : ℚ) + 1 / (d.n_b : ℚ)) = 0 := by
      rw [hdeg]
      ring
    have hstat : (zTest O d α alt).statistic = F.divQ (d.win_rate_b - d.win_rate_a) 0 := by
      simp only [zTest]
      rw [harg, O.sqrt_zero]
    have hpv : (zTest O d α alt).pValue
        = zPValue O (F.divQ (d.win_rate_b - d.win_rate_a) 0) alt := by
      simp only [zTest]
      rw [harg, O.sqrt_zero]
    have hsig : (zTest O d α alt).significant = ((zTest O d α alt).pValue).ltQ α := by
      simp only [zTest]
    constructor
    · rw [hstat]
      unfold F.divQ
      rw [if_pos rfl]
      split_ifs <;> rfl
    · intro heq
      have hz : F.divQ (d.win_rate_b - d.win_rate_a) 0 = F.nan := by
        unfold F.divQ
        rw [if_pos rfl, if_pos (by rw [heq]; ring)]
      have h1 : (zTest O d α alt).statistic = F.nan := by rw [hstat, hz]
      have h2 : (zTest O d α alt).pValue = F.nan := by
        rw [hpv, hz]
        cases alt <;> rfl
      exact ⟨h1, h2, by rw [hsig, h2]; rfl⟩
  · intro m
    cases m
    · rfl
    · with_unfolding_all decide
    · rfl
    · rfl

/-- C3 witness: the degenerate branch instantiated at the all-wins input. -/
theorem c3_degenerate_silent_witness :
    (zTest refOracle dAllWins (1/20) Alt.greater).pValue = F.nan :=
  ((c3_degenerate_silent.1 refOracle dAllWins (1/20) Alt.greater
    (by with_unfolding_all decide) (by with_unfolding_all decide)).2 (by with_unfolding_all decide)).2.1

/-- C4: for every validated pair the source's `_get_recommended_method`
agrees with the spec's ordered rule table, and a ratio below `0.1` always
yields Fisher or the permutation test according to the minimum expected
cell count. -/
theorem c4_method_rule_table :
    ∀ d : TrialData, Valid d →
      getRecommendedMethod (some d) = specRecommendedMethod d ∧
      (sizeQuotient d < 1/10 →
        getRecommendedMethod (some d)
          = (if 5 ≤ minExpectedCount d then Method.fisher else Method.barnard)) := by
  intro d hv
  have hmax : 0 < max d.n_a d.n_b := lt_max_of_lt_left hv.1
  have hq : sizeQuotient d = ((min d.n_a d.n_b : ℤ) : ℚ) / ((max d.n_a d.n_b : ℤ) : ℚ) := by
    unfold sizeQuotient
    rw [if_pos hmax]
  constructor
  · simp only [getRecommendedMethod, specRecommendedMethod, minExpectedCount]
    rw [hq]
  · intro hlt
    simp only [getRecommendedMethod]
    rw [if_pos (Or.inr hlt)]

/-- C4 witness: the worked example is severely imbalanced and lands on
Fisher under both the source and the spec rule table. -/
theorem c4_method_rule_table_witness :
    getRecommendedMethod (some dExample) = specRecommendedMethod dExample ∧
    getRecommendedMethod (some dExample) = Method.fisher := by
  have h := c4_method_rule_table dExample (by with_unfolding_all decide)
  refine ⟨h.1, ?_⟩
  have h2 := h.2 (by with_unfolding_all decide)
  rw [h2]
  with_unfolding_all decide

/-- C5: when the stored `n_a` is zero, `get_power_analysis` silently
returns `0` for the required-total-samples field (the source's literal
`... if self.n_a > 0 else 0`); no `UndefinedPower` failure exists in the
code, the report is an ordinary one. -/
theorem c5_power_required_total_zero :
    ∀ (O : MathOracle) (α pw rA rB : ℚ) (nB wA wB : ℤ),
      (getPowerAnalysis O ⟨0, rA, nB, rB, wA, wB⟩ α pw).requiredTotal = 0 := by
  intro O α pw rA rB nB wA wB
  simp [getPowerAnalysis]

/-- C6: for every validated pair and oracle, the z statistic and p-value of
`_z_test` equal the spec's closed-form expressions, significance is
`p < alpha`, and on the worked input `nA=1000, rateA=0.52, nB=50,
rateB=0.62, alternative=greater` they take the explicit closed-form
values. -/
theorem c6_z_test_formula :
    ∀ (O : MathOracle) (d : TrialData) (α : ℚ) (alt : Alt), Valid d →
      ((zTest O d α alt).statistic = zSpecStatistic O d ∧
       (zTest O d α alt).pValue = zSpecPValue O d alt ∧
       (zTest O d α alt).significant = ((zTest O d α alt).pValue).ltQ α) ∧
      ((zTest O dExample (1/20) Alt.greater).statistic
          = F.divQ (1/10) (O.sqrt (551/1050 * (499/1050) * (21/1000))) ∧
       (zTest O dExample (1/20) Alt.greater).pValue
          = F.rat (1 - O.normCdf ((1/10) / O.sqrt (551/1050 * (499/1050) * (21/1000))))) := by
  intro O d α alt _hv
  have hpool : pooledP d
      = ((d.wins_a + d.wins_b : ℤ) : ℚ) / ((d.n_a + d.n_b : ℤ) : ℚ) := by
    unfold pooledP
    push_cast
    ring_nf
  have hargEx : pooledP dExample * (1 - pooledP dExample)
      * (1 / (dExample.n_a : ℚ) + 1 / (dExample.n_b : ℚ))
      = 551/1050 * (499/1050) * (21/1000) := by
    norm_num [pooledP, dExample]
  have hdiffEx : dExample.win_rate_b - dExample.win_rate_a = 1/10 := by
    norm_num [dExample]
  have hposEx : (0 : ℚ) < O.sqrt (551/1050 * (499/1050) * (21/1000)) :=
    O.sqrt_pos _ (by norm_num)
  refine ⟨⟨?_, ?_, ?_⟩, ?_, ?_⟩
  · simp only [zTest, zSpecStatistic]
    rw [hpool]
  · simp only [zTest, zSpecPValue, zSpecStatistic]
    rw [hpool]
  · simp only [zTest]
  · simp only [zTest]
    rw [hargEx, hdiffEx]
  · simp only [zTest]
    rw [hargEx, hdiffEx]
    unfold F.divQ
    rw [if_neg hposEx.ne']
    rfl

/-- C6 witness: the general equality instantiated at the worked example
with a concrete oracle. -/
theorem c6_z_test_formula_witness :
    (zTest refOracle dExample (1/20) Alt.greater).statistic
      = zSpecStatistic refOracle dExample :=
  ((c6_z_test_formula refOracle dExample (1/20) Alt.greater
    (by with_unfolding_all decide)).1).1

/-- C7: whenever `_chi2_test` comes back significant with a positive
chi-square statistic, the synthesized recommendation names strategy B —
the effect handed to `_get_recommendation` is the nonnegative phi
coefficient, so the winner's identity is not consulted.  Instantiated (see
the witness) at a pair where A's rate is far higher, the recommendation
still names B, contradicting the claim. -/
lemma getRecommendation_preferB {p α eff : ℚ}
    (hp : F.ltQ (.rat p) α = true) (he : 0 < eff) :
    getRecommendation (.rat p) α (.rat eff) = Advice.preferB := by
  unfold getRecommendation
  rw [if_pos hp, if_pos (by simp [F.posB, he])]

theorem c7_chi2_recommendation_direction :
    ∀ (O : MathOracle) (d : TrialData) (α : ℚ), Valid d →
      okSignificant (chi2Test O d α) = some true →
      okStatPos (chi2Test O d α) = some true →
      okAdvice (chi2Test O d α) = some Advice.preferB := by
  intro O d α hv hsig hpos
  have htotal : (0 : ℚ) < (d.wins_a : ℚ) + ((d.n_a - d.wins_a : ℤ) : ℚ)
      + (d.wins_b : ℚ) + ((d.n_b - d.wins_b : ℤ) : ℚ) := by
    push_cast
    have h1 : (0 : ℚ) < (d.n_a : ℚ) := by exact_mod_cast hv.1
    have h2 : (0 : ℚ) < (d.n_b : ℚ) := by exact_mod_cast hv.2.1
    linarith
  simp only [chi2Test] at hsig hpos ⊢
  split_ifs at hsig hpos ⊢ with hcond
  · simp [okSignificant] at hsig
  · simp only [okSignificant, okStatPos, okAdvice, Option.some.injEq] at hsig hpos ⊢
    simp only [F.posB, decide_eq_true_eq] at hpos
    exact getRecommendation_preferB hsig (O.sqrt_pos _ (div_pos hpos htotal))

/-- C7 witness: at `nA=nB=100`, rates `0.9` versus `0.1` (group A far
better) a significant chi-square run still recommends strategy B. -/
theorem c7_chi2_recommendation_direction_witness :
    okAdvice (chi2Test refOracle dAHigher 1) = some Advice.preferB ∧
    dAHigher.win_rate_b < dAHigher.win_rate_a :=
  ⟨c7_chi2_recommendation_direction refOracle dAHigher 1
      (by with_unfolding_all decide) (by with_unfolding_all decide)
      (by with_unfolding_all decide),
   by with_unfolding_all decide⟩

/-- C8 counterexample: on equal groups of 339 the source computes
`max(50, int(0.3*339)) = 101` by truncation, while the claimed
round-to-nearest formula gives `102`. -/
theorem c8_min_sample_counterexample :
    Valid dEqual339 ∧
    minRecommendedSample dEqual339 = 101 ∧
    claimedMinRecommendedSample dEqual339 = 102 ∧
    minRecommendedSample dEqual339 ≠ claimedMinRecommendedSample dEqual339 := by
  refine ⟨?_, ?_, ?_, ?_⟩ <;> with_unfolding_all decide

/-- C8 amended: the minimum recommended additional sample size equals
`max(50, trunc(0.3 * max(nA, nB)))` — truncation toward zero (floor, the
arguments being positive), not rounding to the nearest integer. -/
theorem c8_min_sample_truncation :
    ∀ d : TrialData, Valid d →
      minRecommendedSample d
        = max 50 (((3 * (max d.n_a d.n_b).toNat) / 10 : ℕ) : ℤ) := by
  intro d hv
  have hm : 0 < max d.n_a d.n_b := lt_max_of_lt_left hv.1
  have hmq : (0 : ℚ) ≤ ((max d.n_a d.n_b : ℤ) : ℚ) := by exact_mod_cast hm.le
  unfold minRecommendedSample pyInt
  rw [if_pos (by positivity)]
  congr 1
  have hmt : ((max d.n_a d.n_b : ℤ) : ℚ) = (((max d.n_a d.n_b).toNat : ℕ) : ℚ) := by
    rw [← Int.cast_natCast]
    exact_mod_cast (Int.toNat_of_nonneg hm.le).symm
  set k : ℕ := (max d.n_a d.n_b).toNat with hk
  have hq : (3/10 : ℚ) * ((max d.n_a d.n_b : ℤ) : ℚ) = ((3 * k : ℕ) : ℚ) / 10 := by
    rw [hmt]
    push_cast
    ring
  have h10 : (0 : ℚ) < 10 := by norm_num
  have h1 : ((3 * k) / 10 : ℕ) * 10 ≤ 3 * k := Nat.div_mul_le_self _ _
  have hdm := Nat.div_add_mod (3 * k) 10
  have hmod : (3 * k) % 10 < 10 := Nat.mod_lt _ (by norm_num)
  have h2 : 3 * k < (((3 * k) / 10 : ℕ) + 1) * 10 := by omega
  rw [hq, Int.floor_eq_iff]
  constructor
  · rw [le_div_iff₀ h10]
    exact_mod_cast h1
  · rw [div_lt_iff₀ h10]
    push_cast
    exact_mod_cast h2

/-- C8 witness: the amended formula evaluated at the 339-vs-339 input. -/
theorem c8_min_sample_truncation_witness :
    minRecommendedSample dEqual339
      = max 50 (((3 * (max dEqual339.n_a dEqual339.n_b).toNat) / 10 : ℕ) : ℤ) :=
  c8_min_sample_truncation dEqual339 (by with_unfolding_all decide)

/-- C9: `set_data` fails exactly on a nonpositive sample size
(`InvalidSampleSize`, checked first) or a rate outside `[0,1]`
(`InvalidRate`); on failure the stored data is untouched; on success the
stored pair carries the rounded win counts, is valid, and the small-sample
and non-integer-win warnings are returned alongside without blocking. -/
theorem c9_validation_contract :
    ∀ (st : Option TrialData) (nA : ℤ) (rA : ℚ) (nB : ℤ) (rB : ℚ),
      ((setDataRun st nA rA nB rB).2.1 = none ↔
        (0 < nA ∧ 0 < nB ∧ 0 ≤ rA ∧ rA ≤ 1 ∧ 0 ≤ rB ∧ rB ≤ 1)) ∧
      ((setDataRun st nA rA nB rB).2.1 = some ValidationError.invalidSampleSize ↔
        (nA ≤ 0 ∨ nB ≤ 0)) ∧
      ((setDataRun st nA rA nB rB).2.1 = some ValidationError.invalidRate ↔
        (0 < nA ∧ 0 < nB ∧ ¬(0 ≤ rA ∧ rA ≤ 1 ∧ 0 ≤ rB ∧ rB ≤ 1))) ∧
      (∀ e, (setDataRun st nA rA nB rB).2.1 = some e →
        (setDataRun st nA rA nB rB).1 = st) ∧
      ((setDataRun st nA rA nB rB).2.1 = none →
        (setDataRun st nA rA nB rB).1
          = some ⟨nA, rA, nB, rB, pyRound ((nA : ℚ) * rA), pyRound ((nB : ℚ) * rB)⟩ ∧
        Valid ⟨nA, rA, nB, rB, pyRound ((nA : ℚ) * rA), pyRound ((nB : ℚ) * rB)⟩ ∧
        (setDataRun st nA rA nB rB).2.2 = validationWarnings nA rA nB rB) := by
  intro st nA rA nB rB
  unfold setDataRun validateData
  split_ifs with h1 h2
  · dsimp only
    refine ⟨⟨fun h => by simp at h, ?_⟩, ⟨fun _ => h1, fun _ => rfl⟩,
      ⟨fun h => by simp at h, ?_⟩, fun e _ => rfl, fun h => by simp at h⟩
    · rintro ⟨hA, hB, -⟩
      omega
    · rintro ⟨hA, hB, -⟩
      omega
  · dsimp only
    refine ⟨⟨fun h => by simp at h, ?_⟩, ⟨fun h => by simp at h, fun h => absurd h h1⟩,
      ⟨fun _ => ?_, fun _ => rfl⟩, fun e _ => rfl, fun h => by simp at h⟩
    · rintro ⟨-, -, ha, hb, hc, hd⟩
      rcases h2 with h2 | h2
      · exact h2 ⟨ha, hb⟩
      · exact h2 ⟨hc, hd⟩
    · push_neg at h1
      refine ⟨by omega, by omega, ?_⟩
      rintro ⟨ha, hb, hc, hd⟩
      rcases h2 with h2 | h2
      · exact h2 ⟨ha, hb⟩
      · exact h2 ⟨hc, hd⟩
  · dsimp only
    push_neg at h1
    have hranges : (0 ≤ rA ∧ rA ≤ 1) ∧ (0 ≤ rB ∧ rB ≤ 1) := by
      by_contra hc
      rcases not_and_or.mp hc with hc | hc
      · exact h2 (Or.inl hc)
      · exact h2 (Or.inr hc)
    refine ⟨⟨fun _ => ⟨by omega, by omega, hranges.1.1, hranges.1.2, hranges.2.1, hranges.2.2⟩,
        fun _ => rfl⟩,
      ⟨fun h => by simp at h, fun h => by omega⟩,
      ⟨fun h => by simp at h, fun h => absurd ⟨hranges.1.1, hranges.1.2, hranges.2.1, hranges.2.2⟩ h.2.2⟩,
      fun e h => by simp at h, ?_⟩
    intro _
    exact ⟨rfl, ⟨h1.1, h1.2, hranges.1.1, hranges.1.2, hranges.2.1, hranges.2.2, rfl, rfl⟩, rfl⟩

/-- C9 witness: a nonpositive `n_a` is rejected as `InvalidSampleSize` and
leaves the (empty) stored data unchanged. -/
theorem c9_validation_contract_witness :
    (setDataRun none (-1) (1/2) 10 (1/2)).1 = none ∧
    (setDataRun none (-1) (1/2) 10 (1/2)).2.1 = some ValidationError.invalidSampleSize := by
  have h := c9_validation_contract none (-1) (1/2) 10 (1/2)
  have herr : (setDataRun none (-1) (1/2) 10 (1/2)).2.1
      = some ValidationError.invalidSampleSize :=
    h.2.1.mpr (Or.inl (by norm_num))
  exact ⟨h.2.2.2.1 ValidationError.invalidSampleSize herr, herr⟩

/-- C10: a `run_test` call with the chi-square method returns the same
result for every value of `alternative` (and any random state), and the
returned dictionary has no alternative entry. -/
theorem c10_chi2_ignores_alternative :
    ∀ (O : MathOracle) (draws1 draws2 : ℕ → ℕ) (st : Option TrialData)
      (α : ℚ) (a1 a2 : Alt),
      runTest O draws1 st .chi2 α a1 = runTest O draws2 st .chi2 α a2 ∧
      okAlternative (runTest O draws1 st .chi2 α a1) = none := by
  intro O draws1 draws2 st α a1 a2
  constructor
  · cases st <;> rfl
  · cases st with
    | none => rfl
    | some d =>
      show okAlternative (chi2Test O d α) = none
      simp only [chi2Test]
      split_ifs <;> rfl

end ABTest

